import Mathlib

/-!  Shallow embedding of `src/data/process_data.py` (the disaster-response
ETL pipeline): `load_data`, `clean_data`, `save_data` and the `main`
driver, together with proofs of the specification's testable properties.

Python strings are modelled as `List Char`; a pandas cell is a `Value`
(string, integer, or missing, i.e. None/NaN); a DataFrame is a `Table`
(ordered column names plus rows).  Python exceptions raised along the
pipeline are modelled by the `PDError` kinds below. -/

set_option autoImplicit false

namespace ProcessData

/-- A cell of a pandas DataFrame: a Python string (as its character list),
an integer, or a missing value (None / NaN). -/
inductive Value where
  | str  : List Char → Value
  | int  : Int → Value
  | none : Value
deriving DecidableEq, Repr

abbrev Row := List Value

/-- A pandas DataFrame: ordered column names and rows, each row listing
its cells in column order (short rows read as missing values). -/
structure Table where
  cols : List String
  rows : List Row
deriving DecidableEq, Repr

/-- Python exception kinds raised by the pipeline.  The spec's error
taxonomy (spec section 7) maps onto these as follows:
`FileNotFoundError`-kind = `fileNotFound` (`pd.read_csv` on a missing
path); `SchemaError`-kind = `attributeError` (`df.categories` on a frame
without such a column); `ParseError`-kind = `typeError` (subscripting the
None padding that `str.split(';', expand=True)` inserts when a row's
token count disagrees with the frame's derived width);
`ConversionError`-kind = `valueError` (`int()` on a non-digit);
`indexError` is `iloc[0]` of an empty frame or `x[-1]` of an empty
string; `keyError` is a column lookup that cannot be resolved (missing
merge key, or a duplicated derived column name). -/
inductive PDError where
  | fileNotFound
  | attributeError
  | keyError
  | indexError
  | typeError
  | valueError
deriving DecidableEq, Repr

/-- The characters of a string literal (Python string notation). -/
def pstr (s : String) : List Char := s.data

/-- Cell `i` of a row; a missing cell reads as `Value.none`, matching the
NaN padding pandas applies to ragged data. -/
def cellAt (r : Row) (i : Nat) : Value := r.getD i Value.none

/-- Index of the first column with the given name. -/
def Table.colIdx (t : Table) (c : String) : Option Nat :=
  t.cols.findIdx? (fun x => x == c)

/-- Python `s.split(';')`: always at least one piece; empty pieces kept. -/
def splitSemi : List Char → List (List Char)
  | [] => [[]]
  | c :: cs =>
    if c = ';' then [] :: splitSemi cs
    else
      match splitSemi cs with
      | t :: ts => (c :: t) :: ts
      | [] => [[c]]

/-- Python `s[:-2]`: the string without its last two characters. -/
def dropLast2 (l : List Char) : List Char := l.dropLast.dropLast

/-- The integer denoted by a digit character: `int(c)` when `c.isDigit`. -/
def digitVal (c : Char) : Int := (c.toNat : Int) - 48

/-- `lambda x: x[:-2]` applied down the first row of the split frame
(source line 49); subscripting a missing value raises `TypeError`. -/
def stripNames : List Value → Except PDError (List String)
  | [] => .ok []
  | Value.str s :: vs => (stripNames vs).map (fun ns => String.mk (dropLast2 s) :: ns)
  | _ :: _ => .error .typeError

/-- `lambda x: x[-1]` applied down one column of the split frame (source
line 53): `TypeError` on a missing value, `IndexError` on an empty
string. -/
def lastChars : List Value → Except PDError (List Char)
  | [] => .ok []
  | Value.str s :: vs =>
    match s.getLast? with
    | some c => (lastChars vs).map (fun cs => c :: cs)
    | Option.none => .error .indexError
  | _ :: _ => .error .typeError

/-- `.astype(int)` on the column of extracted last characters (source
line 53): `ValueError` on a non-digit. -/
def toInts : List Char → Except PDError (List Int)
  | [] => .ok []
  | c :: cs =>
    if c.isDigit then (toInts cs).map (fun zs => digitVal c :: zs)
    else .error .valueError

/-- One iteration of the conversion loop body (source line 53): extract
each cell's last character, then convert the column to integers. -/
def convertColumn (cells : List Value) : Except PDError (List Int) :=
  match lastChars cells with
  | .ok cs => toInts cs
  | .error e => .error e

/-- The loop over the split frame's columns, left to right (source lines
52-53). -/
def convertColumns (cat : List Row) : List Nat → Except PDError (List (List Int))
  | [] => .ok []
  | j :: js =>
    match convertColumn (cat.map (fun r => cellAt r j)) with
    | .ok col =>
      (convertColumns cat js).map (fun cols => col :: cols)
    | .error e => .error e

/-- Number of columns one cell demands of `str.split(';', expand=True)`
(a non-string cell expands to a single NaN). -/
def tokWidth : Value → Nat
  | Value.str s => (splitSemi s).length
  | _ => 1

/-- Width of the frame produced by `str.split(';', expand=True)` (source
line 46). -/
def expandWidth (cells : List Value) : Nat :=
  (cells.map tokWidth).foldr max 0

/-- One row of the frame produced by `str.split(';', expand=True)`: the
row's tokens, padded with NaN up to the frame width `n`. -/
def expandCell (n : Nat) : Value → Row
  | Value.str s =>
    (splitSemi s).map Value.str ++ List.replicate (n - (splitSemi s).length) Value.none
  | _ => List.replicate n Value.none

/-- A `categories` cell the conversion loop accepts: a string whose every
`;`-token is nonempty and ends in a digit character. -/
def goodCat : Value → Bool
  | Value.str s =>
    (splitSemi s).all (fun t =>
      match t.getLast? with
      | some c => c.isDigit
      | Option.none => false)
  | _ => false

/-- Propositional form of `goodCat` for a single token cell of the split
frame: a string whose last character exists and is a digit. -/
def GoodCell (v : Value) : Prop :=
  ∃ s c, v = Value.str s ∧ s.getLast? = some c ∧ c.isDigit = true

/-- Worker for `DataFrame.drop_duplicates`: drop elements already seen. -/
def dropDupsFrom {α : Type} [DecidableEq α] (seen : List α) : List α → List α
  | [] => []
  | x :: xs =>
    if x ∈ seen then dropDupsFrom seen xs
    else x :: dropDupsFrom (x :: seen) xs

/-- `DataFrame.drop_duplicates()` (source line 60): remove exact
duplicates, keeping the first occurrence, preserving order. -/
def dropDuplicates {α : Type} [DecidableEq α] (l : List α) : List α :=
  dropDupsFrom [] l

/-- Width of the split frame of source line 46, for a `categories` column
sitting at index `ci`. -/
def catWidth (df : Table) (ci : Nat) : Nat :=
  expandWidth (df.rows.map (fun r => cellAt r ci))

/-- The frame `categories = df.categories.str.split(';', expand=True)` of
source line 46, for a `categories` column sitting at index `ci`. -/
def catFrame (df : Table) (ci : Nat) : List Row :=
  (df.rows.map (fun r => cellAt r ci)).map (expandCell (catWidth df ci))

/-- Source lines 46-57: split the `categories` column (at index `ci`)
into the expanded frame, name its columns from the first row, convert
every column to integers, and append the result to the remaining
columns.  Returns the derived names and the recombined rows (still
before duplicate removal, which line 60 applies afterwards). -/
def cleanCore (df : Table) (ci : Nat) : Except PDError (List String × List Row) :=
  match catFrame df ci with
  | [] => .error .indexError
  | first :: _ =>
    match stripNames first with
    | .error e => .error e
    | .ok names =>
      if names.Nodup then
        match convertColumns (catFrame df ci) (List.range (catWidth df ci)) with
        | .error e => .error e
        | .ok catCols =>
          let newRows := (List.range (catFrame df ci).length).map
            (fun i => catCols.map (fun col => Value.int (col.getD i 0)))
          .ok (names,
            ((df.rows.map (fun r => r.eraseIdx ci)).zip newRows).map
              (fun p => p.1 ++ p.2))
      else .error .keyError

/-- `clean_data` (source lines 30-62).  `df.categories` resolves only
when exactly one column is named `categories` (attribute access on a
missing column raises `AttributeError`, and on a duplicated one it
yields a DataFrame, on which the subsequent `.str` accessor raises
`AttributeError` as well); then lines 46-57 expand the column and
line 60 removes duplicate rows. -/
def clean_data (df : Table) : Except PDError Table :=
  if df.cols.count "categories" = 1 then
    match df.colIdx "categories" with
    | some ci =>
      match cleanCore df ci with
      | .ok (names, pre) =>
        .ok ⟨df.cols.eraseIdx ci ++ names, dropDuplicates pre⟩
      | .error e => .error e
    | Option.none => .error .attributeError
  else .error .attributeError

/-- `pd.merge(messages, categories, how='inner', on='id')` (source line
25): keep the left frame's columns followed by the right frame's columns
other than `id`; one output row per matching pair, left rows in order,
each paired with its matching right rows in order.  (The source assumes
the non-`id` column names of the two frames do not collide; under that
assumption pandas applies no suffixing and this is the exact column
layout.)  A missing `id` column raises `KeyError`. -/
def merge_inner (m c : Table) : Except PDError Table :=
  match m.colIdx "id", c.colIdx "id" with
  | some im, some ic =>
    .ok ⟨m.cols ++ c.cols.eraseIdx ic,
      m.rows.flatMap (fun rm =>
        (c.rows.filter (fun rc => cellAt rc ic == cellAt rm im)).map
          (fun rc => rm ++ rc.eraseIdx ic))⟩
  | _, _ => .error .keyError

/-- `pd.read_csv(path)` over a modelled file system: the already-parsed
table stored at `path`, or `FileNotFoundError`. -/
def read_csv (files : List (String × Table)) (path : String) :
    Except PDError Table :=
  match files.lookup path with
  | some t => .ok t
  | Option.none => .error .fileNotFound

/-- `load_data` (source lines 6-27): read both csv files and inner-merge
them on `id`. -/
def load_data (files : List (String × Table))
    (messagesPath categoriesPath : String) : Except PDError Table :=
  match read_csv files messagesPath with
  | .error e => .error e
  | .ok messages =>
    match read_csv files categoriesPath with
    | .error e => .error e
    | .ok categories => merge_inner messages categories

/-- An sqlite database file: named tables. -/
structure DB where
  tables : List (String × Table)
deriving DecidableEq, Repr

/-- `create_engine('sqlite:///path')` (source line 79): the database file
at `path`; sqlite creates an empty database when the file is absent. -/
def create_engine (fs : List (String × DB)) (path : String) : DB :=
  (fs.lookup path).getD ⟨[]⟩

/-- `df.to_sql(name, engine, index=withIndex, if_exists='replace')`
(source line 80): drop any existing table called `name` and write the
frame's rows afresh; with `index=True` pandas would prepend the frame's
index as an extra column, with `index=False` it does not. -/
def to_sql (df : Table) (idx : List Value) (withIndex : Bool)
    (name : String) (db : DB) : DB :=
  let t : Table :=
    if withIndex then
      ⟨"index" :: df.cols, (idx.zip df.rows).map (fun p => p.1 :: p.2)⟩
    else df
  ⟨(name, t) :: db.tables.filter (fun p => p.1 != name)⟩

/-- `save_data` (source lines 66-80): open the database at `path` and
write `df` under `name` with `index=False, if_exists='replace'`.  The
frame's positional index is passed along but, `index` being `False`, is
not persisted. -/
def save_data (df : Table) (fs : List (String × DB)) (path name : String) :
    List (String × DB) :=
  (path,
    to_sql df ((List.range df.rows.length).map (fun i => Value.int i))
      false name (create_engine fs path)) ::
  fs.filter (fun p => p.1 != path)

/-- Read one table back out of the modelled file system. -/
def readTable (fs : List (String × DB)) (path name : String) : Option Table :=
  match fs.lookup path with
  | some db => db.tables.lookup name
  | Option.none => Option.none

/-- Observable outcome of one driver run: resulting file system, lines
printed, process exit code, and which stages were invoked. -/
structure RunState where
  fs : List (String × DB)
  printed : List String
  exitCode : Nat
  loaderRan : Bool
  cleanerRan : Bool
  sinkRan : Bool
deriving DecidableEq, Repr

/-- The usage message printed when the argument count is wrong (source
lines 102-107). -/
def usageMessage : String :=
  "Please provide the filepaths of the messages and categories " ++
  "datasets as the first and second argument respectively, as " ++
  "well as the filepath of the database and tablename to save the cleaned data " ++
  "to as the third and fourth argument. \n\nExample: python process_data.py " ++
  "disaster_messages.csv disaster_categories.csv " ++
  "DisasterResponse.db disaster_messages"

/-- `main` (source lines 83-107).  `argv` is `sys.argv`, program name
included, so the four-positional-argument case is `argv.length = 5`.  A
stage's uncaught exception terminates the process with exit code 1 after
the progress lines already printed; the usage branch prints the usage
message and returns normally (exit code 0) without invoking any stage. -/
def main (argv : List String) (files : List (String × Table))
    (fs : List (String × DB)) : RunState :=
  if argv.length = 5 then
    let mp := argv.getD 1 ""
    let cp := argv.getD 2 ""
    let dbp := argv.getD 3 ""
    let tn := argv.getD 4 ""
    let msg1 := "Loading data...\n    MESSAGES: " ++ mp ++ "\n    CATEGORIES: " ++ cp
    match load_data files mp cp with
    | .error _ => ⟨fs, [msg1], 1, true, false, false⟩
    | .ok df =>
      match clean_data df with
      | .error _ => ⟨fs, [msg1, "Cleaning data..."], 1, true, true, false⟩
      | .ok df2 =>
        ⟨save_data df2 fs dbp tn,
         [msg1, "Cleaning data...",
          "Saving data...\n    DATABASE: " ++ dbp,
          "TABLENAME: " ++ tn,
          "Cleaned data saved to database!"],
         0, true, true, true⟩
  else ⟨fs, [usageMessage], 0, false, false, false⟩

/-! ### Duplicate removal: general theory (source line 60) -/

theorem dropDupsFrom_sublist {α : Type} [DecidableEq α] (seen l : List α) :
    List.Sublist (dropDupsFrom seen l) l := by
  induction l generalizing seen with
  | nil => simp [dropDupsFrom]
  | cons x xs ih =>
    simp only [dropDupsFrom]
    split
    · exact List.Sublist.cons x (ih seen)
    · exact List.Sublist.cons₂ x (ih (x :: seen))

theorem mem_dropDupsFrom {α : Type} [DecidableEq α] (seen l : List α) (a : α) :
    a ∈ dropDupsFrom seen l ↔ a ∈ l ∧ a ∉ seen := by
  induction l generalizing seen with
  | nil => simp [dropDupsFrom]
  | cons x xs ih =>
    simp only [dropDupsFrom]
    split
    · rename_i hx
      rw [ih]
      constructor
      · rintro ⟨h1, h2⟩
        exact ⟨List.mem_cons_of_mem x h1, h2⟩
      · rintro ⟨h1, h2⟩
        rcases List.mem_cons.mp h1 with h1 | h1
        · subst h1; exact absurd hx h2
        · exact ⟨h1, h2⟩
    · rename_i hx
      rw [List.mem_cons, ih]
      constructor
      · rintro (rfl | ⟨h1, h2⟩)
        · exact ⟨List.mem_cons_self a xs, hx⟩
        · refine ⟨List.mem_cons_of_mem x h1, fun hs => h2 (List.mem_cons_of_mem x hs)⟩
      · rintro ⟨h1, h2⟩
        by_cases hax : a = x
        · exact Or.inl hax
        · rcases List.mem_cons.mp h1 with h1 | h1
          · exact Or.inl h1
          · refine Or.inr ⟨h1, fun hs => ?_⟩
            rcases List.mem_cons.mp hs with h3 | h3
            · exact hax h3
            · exact h2 h3

theorem nodup_dropDupsFrom {α : Type} [DecidableEq α] (seen l : List α) :
    (dropDupsFrom seen l).Nodup := by
  induction l generalizing seen with
  | nil => simp [dropDupsFrom]
  | cons x xs ih =>
    simp only [dropDupsFrom]
    split
    · exact ih seen
    · refine List.nodup_cons.mpr ⟨fun hmem => ?_, ih (x :: seen)⟩
      rw [mem_dropDupsFrom] at hmem
      exact hmem.2 (List.mem_cons_self x seen)

theorem dropDupsFrom_congr {α : Type} [DecidableEq α] {s t : List α} (l : List α)
    (h : ∀ y, y ∈ s ↔ y ∈ t) : dropDupsFrom s l = dropDupsFrom t l := by
  induction l generalizing s t with
  | nil => rfl
  | cons x xs ih =>
    simp only [dropDupsFrom]
    by_cases hx : x ∈ s
    · rw [if_pos hx, if_pos ((h x).mp hx)]
      exact ih h
    · rw [if_neg hx, if_neg (fun hh => hx ((h x).mpr hh))]
      refine congrArg (x :: ·) (ih fun y => ?_)
      simp only [List.mem_cons, h y]

theorem dropDupsFrom_cons_seen {α : Type} [DecidableEq α] (a : α) (seen l : List α) :
    dropDupsFrom (a :: seen) l = dropDupsFrom seen (l.filter (fun y => y ≠ a)) := by
  induction l generalizing seen with
  | nil => rfl
  | cons x xs ih =>
    by_cases hxa : x = a
    · subst hxa
      have hf : (x :: xs).filter (fun y => y ≠ x) = xs.filter (fun y => y ≠ x) := by
        simp [List.filter_cons]
      rw [hf]
      simp only [dropDupsFrom, if_pos (List.mem_cons_self x seen)]
      exact ih seen
    · have hf : (x :: xs).filter (fun y => y ≠ a) = x :: xs.filter (fun y => y ≠ a) := by
        simp [List.filter_cons, hxa]
      rw [hf]
      by_cases hxs : x ∈ seen
      · simp only [dropDupsFrom,
          if_pos (List.mem_cons_of_mem a hxs), if_pos hxs]
        exact ih seen
      · have hx1 : x ∉ a :: seen := by
          intro hc
          rcases List.mem_cons.mp hc with hc | hc
          · exact hxa hc
          · exact hxs hc
        simp only [dropDupsFrom, if_neg hx1, if_neg hxs]
        refine congrArg (x :: ·) ?_
        rw [← ih (x :: seen)]
        exact dropDupsFrom_congr xs (by intro y; simp [List.mem_cons]; tauto)

theorem dropDuplicates_cons {α : Type} [DecidableEq α] (x : α) (l : List α) :
    dropDuplicates (x :: l) = x :: dropDuplicates (l.filter (fun y => y ≠ x)) := by
  simp only [dropDuplicates, dropDupsFrom, List.not_mem_nil, if_neg (fun h => h)]
  have : (x :: ([] : List α)) = [x] := rfl
  rw [show (x :: ([] : List α)) = [x] from rfl] at *
  exact congrArg (x :: ·) (dropDupsFrom_cons_seen x [] l)

theorem dropDuplicates_sublist {α : Type} [DecidableEq α] (l : List α) :
    List.Sublist (dropDuplicates l) l :=
  dropDupsFrom_sublist [] l

theorem mem_dropDuplicates {α : Type} [DecidableEq α] (l : List α) (a : α) :
    a ∈ dropDuplicates l ↔ a ∈ l := by
  rw [dropDuplicates, mem_dropDupsFrom]
  simp

theorem nodup_dropDuplicates {α : Type} [DecidableEq α] (l : List α) :
    (dropDuplicates l).Nodup :=
  nodup_dropDupsFrom [] l

theorem dropDuplicates_eq_self {α : Type} [DecidableEq α] {l : List α}
    (h : l.Nodup) : dropDuplicates l = l := by
  induction l with
  | nil => rfl
  | cons x xs ih =>
    rw [dropDuplicates_cons]
    have hx : x ∉ xs := (List.nodup_cons.mp h).1
    have hf : xs.filter (fun y => y ≠ x) = xs := by
      refine List.filter_eq_self.mpr fun a ha => ?_
      simp only [ne_eq, decide_eq_true_eq]
      intro he
      subst he
      exact hx ha
    rw [hf, ih (List.nodup_cons.mp h).2]

theorem dropDuplicates_idem {α : Type} [DecidableEq α] (l : List α) :
    dropDuplicates (dropDuplicates l) = dropDuplicates l :=
  dropDuplicates_eq_self (nodup_dropDuplicates l)

/-! ### List index helpers -/

theorem getD_append_left {α : Type} {l₁ l₂ : List α} {i : Nat} (d : α)
    (h : i < l₁.length) : (l₁ ++ l₂).getD i d = l₁.getD i d := by
  induction l₁ generalizing i with
  | nil => exact absurd h (by simp)
  | cons x xs ih =>
    cases i with
    | zero => rfl
    | succ n =>
      simp only [List.cons_append, List.getD_cons_succ]
      exact ih (Nat.lt_of_succ_lt_succ h)

theorem getD_append_right_add {α : Type} (l₁ l₂ : List α) (j : Nat) (d : α) :
    (l₁ ++ l₂).getD (l₁.length + j) d = l₂.getD j d := by
  induction l₁ with
  | nil => simp
  | cons x xs ih =>
    have he : (x :: xs).length + j = (xs.length + j) + 1 := by
      simp only [List.length_cons]; omega
    rw [he]
    simp only [List.cons_append, List.getD_cons_succ]
    exact ih

theorem getD_map {α β : Type} (f : α → β) (l : List α) (i : Nat) (d : α)
    (d' : β) (hi : i < l.length) : (l.map f).getD i d' = f (l.getD i d) := by
  rw [List.getD_eq_getElem _ _ (by simpa using hi), List.getElem_map,
    List.getD_eq_getElem _ _ hi]

theorem getD_range (n t : Nat) (ht : t < n) : (List.range n).getD t 0 = t := by
  rw [List.getD_eq_getElem _ _ (by simpa using ht)]
  exact List.getElem_range _ (by simpa using ht)

theorem getD_range_map {β : Type} (m i : Nat) (f : Nat → β) (d : β)
    (hi : i < m) : ((List.range m).map f).getD i d = f i := by
  rw [getD_map f _ i 0 d (by simpa using hi), getD_range m i hi]

theorem mem_eraseIdx_of_mem_ne {α : Type} {l : List α} {i : Nat} {x : α}
    (hx : x ∈ l) (hi : i < l.length) (hne : x ≠ l[i]) : x ∈ l.eraseIdx i := by
  induction l generalizing i with
  | nil => cases hx
  | cons a as ih =>
    cases i with
    | zero =>
      rcases List.mem_cons.mp hx with h | h
      · exact absurd h hne
      · simpa [List.eraseIdx] using h
    | succ n =>
      rcases List.mem_cons.mp hx with h | h
      · simp [List.eraseIdx, h]
      · simpa [List.eraseIdx] using
          Or.inr (ih h (Nat.lt_of_succ_lt_succ hi) (by simpa using hne))

/-! ### `splitSemi` and expansion facts -/

theorem splitSemi_ne_nil (l : List Char) : splitSemi l ≠ [] := by
  cases l with
  | nil => simp [splitSemi]
  | cons c cs =>
    simp only [splitSemi]
    split
    · simp
    · split <;> simp

theorem one_le_tokWidth (v : Value) : 1 ≤ tokWidth v := by
  cases v with
  | str s =>
    simpa [tokWidth, Nat.succ_le, List.length_pos] using splitSemi_ne_nil s
  | int z => simp [tokWidth]
  | none => simp [tokWidth]

theorem expandWidth_cons (v : Value) (cells : List Value) :
    expandWidth (v :: cells) = max (tokWidth v) (expandWidth cells) := rfl

theorem tokWidth_le_expandWidth {cells : List Value} {v : Value}
    (hv : v ∈ cells) : tokWidth v ≤ expandWidth cells := by
  induction cells with
  | nil => cases hv
  | cons w ws ih =>
    rw [expandWidth_cons]
    rcases List.mem_cons.mp hv with rfl | hv'
    · exact le_max_left _ _
    · exact le_trans (ih hv') (le_max_right _ _)

theorem getD_replicate_none (n j : Nat) :
    cellAt (List.replicate n Value.none) j = Value.none := by
  by_cases hj : j < n
  · rw [cellAt, List.getD_eq_getElem _ _ (by simpa using hj)]
    exact List.getElem_replicate _ _
  · exact List.getD_eq_default _ _ (by simpa using hj)

theorem expandCell_str_getD_lt {n : Nat} {s : List Char} {j : Nat}
    (hj : j < (splitSemi s).length) :
    cellAt (expandCell n (Value.str s)) j = Value.str ((splitSemi s).getD j []) := by
  unfold cellAt expandCell
  rw [getD_append_left _ (by simpa using hj)]
  exact getD_map Value.str _ j [] Value.none hj

theorem expandCell_str_getD_ge {n : Nat} {s : List Char} {j : Nat}
    (hj1 : (splitSemi s).length ≤ j) :
    cellAt (expandCell n (Value.str s)) j = Value.none := by
  unfold cellAt expandCell
  obtain ⟨k, rfl⟩ := Nat.exists_eq_add_of_le hj1
  have hlm : (splitSemi s).length = ((splitSemi s).map Value.str).length := by simp
  rw [hlm, getD_append_right_add]
  exact getD_replicate_none _ _

theorem expandCell_nonstr {n : Nat} {v : Value}
    (hv : ∀ s, v ≠ Value.str s) : expandCell n v = List.replicate n Value.none := by
  cases v with
  | str s => exact absurd rfl (hv s)
  | int z => rfl
  | none => rfl

/-! ### Inversion of the conversion machinery (source lines 49-53) -/

theorem stripNames_ok {l : List Value} {ns : List String}
    (h : stripNames l = .ok ns) :
    ∃ ss : List (List Char), l = ss.map Value.str ∧
      ns = ss.map (fun s => String.mk (dropLast2 s)) := by
  induction l generalizing ns with
  | nil =>
    simp only [stripNames, Except.ok.injEq] at h
    exact ⟨[], rfl, by simp [← h]⟩
  | cons v vs ih =>
    match v with
    | Value.str s =>
      simp only [stripNames] at h
      cases hvs : stripNames vs with
      | error e => rw [hvs] at h; simp [Except.map] at h
      | ok ns' =>
        rw [hvs] at h
        simp only [Except.map, Except.ok.injEq] at h
        obtain ⟨ss, h1, h2⟩ := ih hvs
        exact ⟨s :: ss, by simp [h1], by simp [← h, h2]⟩
    | Value.int z => simp [stripNames] at h
    | Value.none => simp [stripNames] at h

theorem stripNames_map_str (ss : List (List Char)) :
    stripNames (ss.map Value.str) =
      .ok (ss.map (fun s => String.mk (dropLast2 s))) := by
  induction ss with
  | nil => rfl
  | cons s ss ih => simp [stripNames, ih, Except.map]

theorem stripNames_error_of_none {l : List Value}
    (hall : ∀ v ∈ l, (∃ s, v = Value.str s) ∨ v = Value.none)
    (hnone : Value.none ∈ l) :
    stripNames l = .error .typeError := by
  induction l with
  | nil => cases hnone
  | cons v vs ih =>
    match v with
    | Value.str s =>
      have hnone' : Value.none ∈ vs := by
        rcases List.mem_cons.mp hnone with h | h
        · simp at h
        · exact h
      simp only [stripNames]
      rw [ih (fun w hw => hall w (List.mem_cons_of_mem _ hw)) hnone']
      rfl
    | Value.none => rfl
    | Value.int z =>
      rcases hall (Value.int z) (List.mem_cons_self _ _) with ⟨s, hs⟩ | hs <;>
        simp at hs

theorem lastChars_ok {cells : List Value} {cs : List Char}
    (h : lastChars cells = .ok cs) :
    cs.length = cells.length ∧
    ∀ i, i < cells.length →
      ∃ s, cells.getD i Value.none = Value.str s ∧
        s.getLast? = some (cs.getD i ' ') := by
  induction cells generalizing cs with
  | nil =>
    simp only [lastChars, Except.ok.injEq] at h
    subst h
    exact ⟨rfl, fun i hi => absurd hi (by simp)⟩
  | cons v vs ih =>
    match v with
    | Value.str s =>
      simp only [lastChars] at h
      cases hgl : s.getLast? with
      | none => rw [hgl] at h; simp at h
      | some c =>
        rw [hgl] at h
        cases hvs : lastChars vs with
        | error e => rw [hvs] at h; simp [Except.map] at h
        | ok cs' =>
          rw [hvs] at h
          simp only [Except.map, Except.ok.injEq] at h
          subst h
          obtain ⟨hlen, hall⟩ := ih hvs
          refine ⟨by simp [hlen], fun i hi => ?_⟩
          cases i with
          | zero => exact ⟨s, rfl, by simpa using hgl⟩
          | succ m =>
            simpa [List.getD_cons_succ] using
              hall m (Nat.lt_of_succ_lt_succ hi)
    | Value.int z => simp [lastChars] at h
    | Value.none => simp [lastChars] at h

theorem lastChars_typeError {cells : List Value}
    (hall : ∀ v ∈ cells, (∃ s c, v = Value.str s ∧ s.getLast? = some c) ∨ v = Value.none)
    (hnone : Value.none ∈ cells) :
    lastChars cells = .error .typeError := by
  induction cells with
  | nil => cases hnone
  | cons v vs ih =>
    rcases hall v (List.mem_cons_self _ _) with ⟨s, c, rfl, hlast⟩ | rfl
    · have hnone' : Value.none ∈ vs := by
        rcases List.mem_cons.mp hnone with h | h
        · simp at h
        · exact h
      simp only [lastChars, hlast]
      rw [ih (fun w hw => hall w (List.mem_cons_of_mem _ hw)) hnone']
      rfl
    · rfl

theorem toInts_ok {cs : List Char} {zs : List Int} (h : toInts cs = .ok zs) :
    zs.length = cs.length ∧
    ∀ i, i < cs.length →
      (cs.getD i ' ').isDigit = true ∧ zs.getD i 0 = digitVal (cs.getD i ' ') := by
  induction cs generalizing zs with
  | nil =>
    simp only [toInts, Except.ok.injEq] at h
    subst h
    exact ⟨rfl, fun i hi => absurd hi (by simp)⟩
  | cons c cs' ih =>
    simp only [toInts] at h
    by_cases hd : c.isDigit
    · rw [if_pos hd] at h
      cases hts : toInts cs' with
      | error e => rw [hts] at h; simp [Except.map] at h
      | ok zs' =>
        rw [hts] at h
        simp only [Except.map, Except.ok.injEq] at h
        subst h
        obtain ⟨hlen, hall⟩ := ih hts
        refine ⟨by simp [hlen], fun i hi => ?_⟩
        cases i with
        | zero => exact ⟨hd, rfl⟩
        | succ m =>
          simpa [List.getD_cons_succ] using
            hall m (Nat.lt_of_succ_lt_succ hi)
    · rw [if_neg hd] at h; simp at h

theorem convertColumn_ok {cells : List Value} {zs : List Int}
    (h : convertColumn cells = .ok zs) :
    zs.length = cells.length ∧
    ∀ i, i < cells.length →
      ∃ s c, cells.getD i Value.none = Value.str s ∧ s.getLast? = some c ∧
        c.isDigit = true ∧ zs.getD i 0 = digitVal c := by
  unfold convertColumn at h
  cases hlc : lastChars cells with
  | error e => rw [hlc] at h; simp at h
  | ok cs =>
    rw [hlc] at h
    obtain ⟨hlen1, hall1⟩ := lastChars_ok hlc
    obtain ⟨hlen2, hall2⟩ := toInts_ok h
    refine ⟨by omega, fun i hi => ?_⟩
    obtain ⟨s, hs, hlast⟩ := hall1 i hi
    obtain ⟨hdig, hz⟩ := hall2 i (by omega)
    exact ⟨s, cs.getD i ' ', hs, hlast, hdig, hz⟩

theorem convertColumn_ok_mem {cells : List Value} {zs : List Int}
    (h : convertColumn cells = .ok zs) :
    ∀ v ∈ cells, ∃ s c, v = Value.str s ∧ s.getLast? = some c ∧ c.isDigit = true := by
  intro v hv
  obtain ⟨i, hi, rfl⟩ := List.mem_iff_getElem.mp hv
  obtain ⟨s, c, hs, hrest⟩ := (convertColumn_ok h).2 i hi
  rw [List.getD_eq_getElem _ _ hi] at hs
  exact ⟨s, c, hs, hrest.1, hrest.2.1⟩

theorem convertColumn_ok_of_good {cells : List Value}
    (hg : ∀ v ∈ cells, GoodCell v) :
    ∃ zs, convertColumn cells = .ok zs := by
  induction cells with
  | nil => exact ⟨[], rfl⟩
  | cons v vs ih =>
    obtain ⟨s, c, rfl, hlast, hdig⟩ := hg v (List.mem_cons_self _ _)
    obtain ⟨zs, hzs⟩ := ih (fun w hw => hg w (List.mem_cons_of_mem _ hw))
    unfold convertColumn at hzs ⊢
    cases hlc : lastChars vs with
    | error e => rw [hlc] at hzs; simp at hzs
    | ok cs =>
      rw [hlc] at hzs
      have hzs' : toInts cs = Except.ok zs := hzs
      simp only [lastChars, hlast, hlc, Except.map]
      simp only [toInts, hdig, if_pos]
      rw [hzs']
      exact ⟨digitVal c :: zs, rfl⟩

theorem convertColumn_typeError {cells : List Value}
    (hall : ∀ v ∈ cells, GoodCell v ∨ v = Value.none)
    (hnone : Value.none ∈ cells) :
    convertColumn cells = .error .typeError := by
  unfold convertColumn
  rw [lastChars_typeError ?_ hnone]
  intro v hv
  rcases hall v hv with ⟨s, c, h1, h2, _⟩ | h
  · exact Or.inl ⟨s, c, h1, h2⟩
  · exact Or.inr h

theorem convertColumns_ok {cat : List Row} {js : List Nat} {cols : List (List Int)}
    (h : convertColumns cat js = .ok cols) :
    cols.length = js.length ∧
    ∀ t, t < js.length →
      convertColumn (cat.map (fun r => cellAt r (js.getD t 0))) =
        .ok (cols.getD t []) := by
  induction js generalizing cols with
  | nil =>
    simp only [convertColumns, Except.ok.injEq] at h
    subst h
    exact ⟨rfl, fun t ht => absurd ht (by simp)⟩
  | cons j js' ih =>
    simp only [convertColumns] at h
    cases hc : convertColumn (cat.map (fun r => cellAt r j)) with
    | error e => rw [hc] at h; simp at h
    | ok col =>
      rw [hc] at h
      cases hcs : convertColumns cat js' with
      | error e => rw [hcs] at h; simp [Except.map] at h
      | ok cols' =>
        rw [hcs] at h
        simp only [Except.map, Except.ok.injEq] at h
        subst h
        obtain ⟨hlen, hall⟩ := ih hcs
        refine ⟨by simp [hlen], fun t ht => ?_⟩
        cases t with
        | zero => simpa using hc
        | succ m =>
          simpa [List.getD_cons_succ] using
            hall m (Nat.lt_of_succ_lt_succ ht)

theorem convertColumns_typeError {cat : List Row} {js : List Nat}
    (hall : ∀ j ∈ js, ∀ v ∈ cat.map (fun r => cellAt r j), GoodCell v ∨ v = Value.none)
    (hex : ∃ j ∈ js, Value.none ∈ cat.map (fun r => cellAt r j)) :
    convertColumns cat js = .error .typeError := by
  induction js with
  | nil => obtain ⟨j, hj, _⟩ := hex; cases hj
  | cons j js' ih =>
    by_cases hn : Value.none ∈ cat.map (fun r => cellAt r j)
    · simp only [convertColumns]
      rw [convertColumn_typeError (hall j (List.mem_cons_self _ _)) hn]
    · have hgood : ∀ v ∈ cat.map (fun r => cellAt r j), GoodCell v := by
        intro v hv
        rcases hall j (List.mem_cons_self _ _) v hv with h | rfl
        · exact h
        · exact absurd hv hn
      obtain ⟨zs, hzs⟩ := convertColumn_ok_of_good hgood
      simp only [convertColumns]
      rw [hzs]
      have hex' : ∃ j' ∈ js', Value.none ∈ cat.map (fun r => cellAt r j') := by
        obtain ⟨j2, hj2, hmem⟩ := hex
        rcases List.mem_cons.mp hj2 with rfl | hj2'
        · exact absurd hmem hn
        · exact ⟨j2, hj2', hmem⟩
      rw [ih (fun j' hj' => hall j' (List.mem_cons_of_mem _ hj')) hex']
      rfl

/-! ### Inversion of `cleanCore` and `clean_data` -/

theorem catWidth_def (df : Table) (ci : Nat) :
    catWidth df ci = expandWidth (df.rows.map (fun r => cellAt r ci)) := rfl

theorem catFrame_def (df : Table) (ci : Nat) :
    catFrame df ci =
      (df.rows.map (fun r => cellAt r ci)).map (expandCell (catWidth df ci)) := rfl

theorem length_catFrame (df : Table) (ci : Nat) :
    (catFrame df ci).length = df.rows.length := by
  simp [catFrame]

theorem catFrame_cons (df : Table) (ci : Nat) {r0 : Row} {rs : List Row}
    (hrows : df.rows = r0 :: rs) :
    catFrame df ci = expandCell (catWidth df ci) (cellAt r0 ci) ::
      (rs.map (fun r => cellAt r ci)).map (expandCell (catWidth df ci)) := by
  unfold catFrame
  rw [hrows]
  rfl

theorem goodCat_str_iff (s : List Char) :
    goodCat (Value.str s) = true ↔
      ∀ t ∈ splitSemi s, ∃ c, t.getLast? = some c ∧ c.isDigit = true := by
  simp only [goodCat, List.all_eq_true]
  constructor
  · intro h t ht
    have hh := h t ht
    cases hgl : t.getLast? with
    | none => rw [hgl] at hh; simp at hh
    | some c =>
      rw [hgl] at hh
      exact ⟨c, rfl, hh⟩
  · intro h t ht
    obtain ⟨c, hc, hd⟩ := h t ht
    rw [hc]
    exact hd

theorem cleanCore_ok {df : Table} {ci : Nat} {names : List String} {pre : List Row}
    (h : cleanCore df ci = .ok (names, pre)) :
    ∃ first rest catCols,
      catFrame df ci = first :: rest ∧
      stripNames first = .ok names ∧
      names.Nodup ∧
      convertColumns (catFrame df ci) (List.range (catWidth df ci)) = .ok catCols ∧
      pre = ((df.rows.map (fun r => r.eraseIdx ci)).zip
          ((List.range (catFrame df ci).length).map
            (fun i => catCols.map (fun col => Value.int (col.getD i 0))))).map
          (fun p => p.1 ++ p.2) := by
  unfold cleanCore at h
  split at h
  · simp at h
  · rename_i first rest hcf
    split at h
    · simp at h
    · rename_i names' hsn
      split at h
      · rename_i hnd
        split at h
        · simp at h
        · rename_i catCols hcc
          simp only [Except.ok.injEq, Prod.mk.injEq] at h
          obtain ⟨h1, h2⟩ := h
          subst h1
          exact ⟨first, rest, catCols, hcf, hsn, hnd, hcc, h2.symm⟩
      · simp at h

theorem clean_data_ok {df out : Table} (h : clean_data df = .ok out) :
    ∃ ci names pre,
      df.cols.count "categories" = 1 ∧
      df.colIdx "categories" = some ci ∧
      cleanCore df ci = .ok (names, pre) ∧
      out = ⟨df.cols.eraseIdx ci ++ names, dropDuplicates pre⟩ := by
  unfold clean_data at h
  split at h
  · rename_i hcnt
    split at h
    · rename_i ci hci
      split at h
      · rename_i names pre hcc
        simp only [Except.ok.injEq] at h
        exact ⟨ci, names, pre, hcnt, hci, hcc, h.symm⟩
      · simp at h
    · simp at h
  · simp at h

theorem cleanCore_ok_uniform {df : Table} {ci : Nat} {names : List String}
    {pre : List Row} (h : cleanCore df ci = .ok (names, pre)) :
    ∀ r ∈ df.rows, ∃ s, cellAt r ci = Value.str s ∧
      (splitSemi s).length = catWidth df ci := by
  obtain ⟨first, rest, catCols, hcf, hsn, hnd, hcc, hpre⟩ := cleanCore_ok h
  obtain ⟨hlen, hcols⟩ := convertColumns_ok hcc
  intro r hr
  have hcell_mem : cellAt r ci ∈ df.rows.map (fun r => cellAt r ci) :=
    List.mem_map_of_mem _ hr
  have h1n : 1 ≤ catWidth df ci := by
    rw [catWidth_def]
    exact le_trans (one_le_tokWidth (cellAt r ci)) (tokWidth_le_expandWidth hcell_mem)
  have her : expandCell (catWidth df ci) (cellAt r ci) ∈ catFrame df ci := by
    rw [catFrame_def]
    exact List.mem_map_of_mem _ hcell_mem
  have hstr : ∀ j, j < catWidth df ci →
      ∃ s', cellAt (expandCell (catWidth df ci) (cellAt r ci)) j = Value.str s' := by
    intro j hj
    have hconv := hcols j (by simpa using hj)
    rw [getD_range _ _ hj] at hconv
    have hv : cellAt (expandCell (catWidth df ci) (cellAt r ci)) j ∈
        (catFrame df ci).map (fun rr => cellAt rr j) :=
      List.mem_map_of_mem _ her
    obtain ⟨s', c, he, _⟩ := convertColumn_ok_mem hconv _ hv
    exact ⟨s', he⟩
  cases hcv : cellAt r ci with
  | str s =>
    refine ⟨s, rfl, ?_⟩
    have hk_le : (splitSemi s).length ≤ catWidth df ci := by
      have hle := tokWidth_le_expandWidth hcell_mem
      rw [hcv] at hle
      rw [catWidth_def]
      simpa [tokWidth] using hle
    by_contra hne
    have hk_lt : (splitSemi s).length < catWidth df ci :=
      lt_of_le_of_ne hk_le hne
    obtain ⟨s', hs'⟩ := hstr (splitSemi s).length hk_lt
    rw [hcv, expandCell_str_getD_ge (le_refl _)] at hs'
    simp at hs'
  | int z =>
    exfalso
    obtain ⟨s', hs'⟩ := hstr 0 h1n
    rw [hcv, expandCell_nonstr (fun s hs => by simp at hs),
      getD_replicate_none] at hs'
    simp at hs'
  | none =>
    exfalso
    obtain ⟨s', hs'⟩ := hstr 0 h1n
    rw [hcv, expandCell_nonstr (fun s hs => by simp at hs),
      getD_replicate_none] at hs'
    simp at hs'

/-! ### Merge facts (source line 25) -/

theorem colIdx_spec {t : Table} {cname : String} {i : Nat}
    (h : t.colIdx cname = some i) :
    ∃ hlt : i < t.cols.length, t.cols[i] = cname := by
  unfold Table.colIdx at h
  rw [List.findIdx?_eq_some_iff_getElem] at h
  obtain ⟨hlt, hp, _⟩ := h
  exact ⟨hlt, by simpa using hp⟩

theorem cellAt_append_left {rm x : Row} {im : Nat} (h : im < rm.length) :
    cellAt (rm ++ x) im = cellAt rm im :=
  getD_append_left _ h

theorem merge_rows_count (ic im : Nat) (crows : List Row) (v : Value) :
    ∀ mrows : List Row, (∀ rm ∈ mrows, im < rm.length) →
      ((mrows.flatMap (fun rm =>
          (crows.filter (fun rc => cellAt rc ic == cellAt rm im)).map
            (fun rc => rm ++ rc.eraseIdx ic))).map (fun r => cellAt r im)).count v
        = (mrows.map (fun rm => cellAt rm im)).count v *
          (crows.map (fun rc => cellAt rc ic)).count v := by
  intro mrows
  induction mrows with
  | nil => intro _; simp
  | cons rm rest ih =>
    intro hlen
    have him : im < rm.length := hlen rm (List.mem_cons_self _ _)
    rw [List.flatMap_cons, List.map_append, List.count_append,
      ih (fun r hr => hlen r (List.mem_cons_of_mem _ hr))]
    have hhead : ((crows.filter (fun rc => cellAt rc ic == cellAt rm im)).map
        (fun rc => rm ++ rc.eraseIdx ic)).map (fun r => cellAt r im)
        = List.replicate
            (crows.filter (fun rc => cellAt rc ic == cellAt rm im)).length
            (cellAt rm im) := by
      rw [List.map_map]
      rw [List.map_congr_left
        (fun rc _ => (cellAt_append_left him :
          cellAt (rm ++ rc.eraseIdx ic) im = cellAt rm im))]
      exact List.map_const' _ _
    rw [hhead, List.count_replicate, List.map_cons, List.count_cons]
    by_cases hv : cellAt rm im = v
    · subst hv
      rw [if_pos (by simp), if_pos (by simp)]
      have hlenc : (crows.filter (fun rc => cellAt rc ic == cellAt rm im)).length
          = (crows.map (fun rc => cellAt rc ic)).count (cellAt rm im) := by
        show _ = List.countP (fun x => x == cellAt rm im) (crows.map (fun rc => cellAt rc ic))
        rw [List.countP_map]
        exact (List.countP_eq_length_filter _ _).symm
      rw [hlenc, Nat.add_mul, Nat.one_mul]
      omega
    · rw [if_neg (by simpa using hv), if_neg (by simpa using hv)]
      simp

theorem cleanCore_error_stripNames {df : Table} {ci : Nat} {first : Row}
    {rest : List Row} {e : PDError}
    (hcf : catFrame df ci = first :: rest)
    (hsn : stripNames first = .error e) :
    cleanCore df ci = .error e := by
  unfold cleanCore
  rw [hcf]
  simp only [hsn]

theorem cleanCore_error_convert {df : Table} {ci : Nat} {first : Row}
    {rest : List Row} {names : List String} {e : PDError}
    (hcf : catFrame df ci = first :: rest)
    (hsn : stripNames first = .ok names)
    (hnd : names.Nodup)
    (hcv : convertColumns (catFrame df ci) (List.range (catWidth df ci)) = .error e) :
    cleanCore df ci = .error e := by
  unfold cleanCore
  rw [hcf]
  simp only [hsn, if_pos hnd, ← hcf, hcv]

/-! ### The claims -/

/-- Claim C9: for every input table that lacks a `categories` column,
`clean_data` fails with the spec's SchemaError-kind error (modelled as
`attributeError`, the `AttributeError` that the attribute access
`df.categories` raises on a missing column) rather than producing a
table. -/
theorem c9_missing_categories_schemaError (df : Table)
    (h : "categories" ∉ df.cols) :
    clean_data df = .error .attributeError := by
  unfold clean_data
  rw [if_neg (by rw [List.count_eq_zero.mpr h]; simp)]

/-- Witness for C9 at a concrete table without a `categories` column. -/
theorem c9_witness :
    ("categories" ∉ (Table.mk ["id", "message"] [[Value.int 1]]).cols) ∧
    clean_data (Table.mk ["id", "message"] [[Value.int 1]]) =
      .error .attributeError :=
  ⟨by decide, c9_missing_categories_schemaError _ (by decide)⟩

/-- Claim C10: `clean_data` is undefined on an empty table: with zero
rows it never returns a table (so a non-empty input is an unstated
precondition), and when a unique `categories` column is present the
failure is precisely the `IndexError` raised while deriving column names
from the first row (`iloc[0]` on an empty frame) — not an empty cleaned
table. -/
theorem c10_empty_table (df : Table) (h : df.rows = []) :
    (∀ t, clean_data df ≠ .ok t) ∧
    (df.cols.count "categories" = 1 → clean_data df = .error .indexError) := by
  constructor
  · intro t hok
    obtain ⟨ci, names, pre, _, _, hcc, _⟩ := clean_data_ok hok
    obtain ⟨first, rest, _, hcf, _⟩ := cleanCore_ok hcc
    rw [catFrame_def, h] at hcf
    simp at hcf
  · intro hcnt
    unfold clean_data
    rw [if_pos hcnt]
    cases hci : df.colIdx "categories" with
    | none =>
      exfalso
      unfold Table.colIdx at hci
      rw [List.findIdx?_eq_none_iff] at hci
      have hnm : "categories" ∉ df.cols := by
        intro hmem
        simpa using hci _ hmem
      rw [List.count_eq_zero.mpr hnm] at hcnt
      simp at hcnt
    | some ci =>
      have hcore : cleanCore df ci = .error .indexError := by
        have hcf : catFrame df ci = [] := by rw [catFrame_def, h]; rfl
        unfold cleanCore
        rw [hcf]
      simp only [hcore]

/-- Witness for C10 at a concrete empty table with a `categories`
column. -/
theorem c10_witness :
    ((Table.mk ["id", "categories"] []).rows = []) ∧
    (∀ t, clean_data (Table.mk ["id", "categories"] []) ≠ .ok t) ∧
    clean_data (Table.mk ["id", "categories"] []) = .error .indexError :=
  ⟨rfl, (c10_empty_table _ rfl).1, (c10_empty_table _ rfl).2 (by decide)⟩

/-- Claim C8: a driver invocation whose positional argument count is not
exactly 4 (e.g. 3 arguments) prints the usage message and returns
normally — exit code 0, no non-zero exit — without invoking the Loader,
Cleaner or Sink, leaving the destination file system unchanged. -/
theorem c8_usage_exit (prog : String) (args : List String)
    (files : List (String × Table)) (fs : List (String × DB))
    (h : args.length ≠ 4) :
    main (prog :: args) files fs =
      ⟨fs, [usageMessage], 0, false, false, false⟩ := by
  unfold main
  rw [if_neg (by simp only [List.length_cons]; omega)]

/-- Witness for C8: three positional arguments. -/
theorem c8_witness :
    main ["process_data.py", "a.csv", "b.csv", "c.db"] [] [] =
      ⟨[], [usageMessage], 0, false, false, false⟩ :=
  c8_usage_exit "process_data.py" ["a.csv", "b.csv", "c.db"] [] [] (by decide)

/-- Claim C7: `save_data` writes with drop-and-recreate semantics: after
a save, reading the table name from the destination returns exactly the
newly written table — old rows under that name are gone, not merged,
whatever the prior contents of the store — and, the write passing
`index=False`, the frame's row index is not persisted as a column (the
stored table is `df` itself, with `df`'s column list unchanged). -/
theorem c7_save_replace (df : Table) (fs : List (String × DB))
    (path name : String) :
    readTable (save_data df fs path name) path name = some df := by
  unfold readTable save_data to_sql
  simp [List.lookup]

/-- Claim C4: the duplicate-removal step of `clean_data` (line 60,
`dropDuplicates`) removes exactly the duplicated rows — its result is a
duplicate-free sublist of the input (so surviving order is preserved)
with the same members, satisfying the first-occurrence-wins equation —
and it is idempotent; consequently the rows of any table `clean_data`
returns are duplicate-free and deduplicating them again is the
identity. -/
theorem c4_dedup :
    (∀ l : List Row,
        List.Sublist (dropDuplicates l) l ∧
        (dropDuplicates l).Nodup ∧
        (∀ x : Row, x ∈ dropDuplicates l ↔ x ∈ l) ∧
        dropDuplicates (dropDuplicates l) = dropDuplicates l) ∧
    (∀ (x : Row) (xs : List Row),
        dropDuplicates (x :: xs) =
          x :: dropDuplicates (xs.filter (fun y => y ≠ x))) ∧
    (∀ df out : Table, clean_data df = .ok out →
        out.rows.Nodup ∧ dropDuplicates out.rows = out.rows) := by
  refine ⟨fun l => ⟨dropDuplicates_sublist l, nodup_dropDuplicates l,
      fun x => mem_dropDuplicates l x, dropDuplicates_idem l⟩,
    fun x xs => dropDuplicates_cons x xs, fun df out h => ?_⟩
  obtain ⟨ci, names, pre, _, _, _, hout⟩ := clean_data_ok h
  subst hout
  exact ⟨nodup_dropDuplicates pre, dropDuplicates_idem pre⟩

/-- Witness for C4: a table whose two rows collapse to one, on which the
cleaned output is duplicate-free and stable under re-deduplication. -/
theorem c4_witness :
    clean_data (Table.mk ["id", "categories"]
        [[Value.int 1, Value.str (pstr "a-1;b-0")],
         [Value.int 1, Value.str (pstr "a-1;b-0")]]) =
      .ok (Table.mk ["id", "a", "b"] [[Value.int 1, Value.int 1, Value.int 0]]) ∧
    (Table.mk ["id", "a", "b"] [[Value.int 1, Value.int 1, Value.int 0]]).rows.Nodup ∧
    dropDuplicates
        (Table.mk ["id", "a", "b"] [[Value.int 1, Value.int 1, Value.int 0]]).rows =
      (Table.mk ["id", "a", "b"] [[Value.int 1, Value.int 1, Value.int 0]]).rows :=
  ⟨by rfl,
    c4_dedup.2.2
      (Table.mk ["id", "categories"]
        [[Value.int 1, Value.str (pstr "a-1;b-0")],
         [Value.int 1, Value.str (pstr "a-1;b-0")]])
      (Table.mk ["id", "a", "b"] [[Value.int 1, Value.int 1, Value.int 0]])
      (by rfl)⟩

/-- Claim C1: when `clean_data` returns a table whose input's first row
has `categories` value `s0` splitting into k `;`-tokens, it produces
exactly k new category columns appended after the surviving originals,
the i-th named by the i-th token with its trailing two characters
stripped; the column list is derived once from the first row and is the
one column list of the whole output table (uniform, with no per-row
re-derivation). -/
theorem c1_category_expansion (df out : Table) (ci : Nat) (r0 : Row)
    (s0 : List Char)
    (hci : df.colIdx "categories" = some ci)
    (h0 : df.rows.head? = some r0)
    (hs : cellAt r0 ci = Value.str s0)
    (h : clean_data df = .ok out) :
    out.cols = df.cols.eraseIdx ci ++
      (splitSemi s0).map (fun t => String.mk (dropLast2 t)) ∧
    out.cols.length = (df.cols.eraseIdx ci).length + (splitSemi s0).length := by
  obtain ⟨ci', names, pre, hcnt, hci', hcc, hout⟩ := clean_data_ok h
  obtain rfl : ci = ci' := Option.some.inj (hci.symm.trans hci')
  subst hout
  cases hrows : df.rows with
  | nil => rw [hrows] at h0; simp at h0
  | cons r0' rs =>
    rw [hrows] at h0
    simp only [List.head?_cons, Option.some.injEq] at h0
    subst h0
    obtain ⟨s, hcell, hk⟩ := cleanCore_ok_uniform hcc r0'
      (by rw [hrows]; exact List.mem_cons_self _ _)
    have hse : Value.str s = Value.str s0 := hcell.symm.trans hs
    obtain rfl : s0 = s := (Value.str.inj hse).symm
    obtain ⟨first, rest', catCols, hcf, hsn, hnd, hcc2, hpre⟩ := cleanCore_ok hcc
    have hcf2 := catFrame_cons df ci hrows
    rw [hcf] at hcf2
    injection hcf2 with hfirst hrest2
    rw [hs] at hfirst
    have hexp : expandCell (catWidth df ci) (Value.str s0) =
        (splitSemi s0).map Value.str := by
      rw [← hk]
      simp [expandCell]
    rw [hexp] at hfirst
    rw [hfirst, stripNames_map_str] at hsn
    have hnames : names = (splitSemi s0).map (fun t => String.mk (dropLast2 t)) := by
      simpa using hsn.symm
    constructor
    · simp [hnames]
    · simp [hnames]

/-- Witness for C1 at a concrete one-row table with three tokens. -/
theorem c1_witness :
    clean_data (Table.mk ["id", "categories"]
        [[Value.int 7, Value.str (pstr "related-1;offer-0;aid_related-1")]]) =
      .ok (Table.mk ["id", "related", "offer", "aid_related"]
        [[Value.int 7, Value.int 1, Value.int 0, Value.int 1]]) ∧
    (Table.mk ["id", "related", "offer", "aid_related"]
        [[Value.int 7, Value.int 1, Value.int 0, Value.int 1]]).cols =
      (Table.mk ["id", "categories"]
        [[Value.int 7, Value.str (pstr "related-1;offer-0;aid_related-1")]]).cols.eraseIdx 1 ++
      (splitSemi (pstr "related-1;offer-0;aid_related-1")).map
        (fun t => String.mk (dropLast2 t)) ∧
    (Table.mk ["id", "related", "offer", "aid_related"]
        [[Value.int 7, Value.int 1, Value.int 0, Value.int 1]]).cols.length =
      ((Table.mk ["id", "categories"]
        [[Value.int 7, Value.str (pstr "related-1;offer-0;aid_related-1")]]).cols.eraseIdx 1).length +
      (splitSemi (pstr "related-1;offer-0;aid_related-1")).length := by
  refine ⟨by rfl, ?_⟩
  exact c1_category_expansion
    (Table.mk ["id", "categories"]
      [[Value.int 7, Value.str (pstr "related-1;offer-0;aid_related-1")]])
    (Table.mk ["id", "related", "offer", "aid_related"]
      [[Value.int 7, Value.int 1, Value.int 0, Value.int 1]])
    1 [Value.int 7, Value.str (pstr "related-1;offer-0;aid_related-1")]
    (pstr "related-1;offer-0;aid_related-1")
    (by rfl) (by rfl) (by rfl) (by rfl)

/-- Claim C6: `clean_data` preserves everything outside `categories`:
the output's columns are the original columns with `categories` removed
(order kept) followed by the new names, and each output row is the
corresponding original row minus its `categories` cell with only
integer-valued new cells appended, rows kept in original order up to
duplicate removal. -/
theorem c6_frame (df out : Table) (ci : Nat)
    (hci : df.colIdx "categories" = some ci)
    (h : clean_data df = .ok out) :
    ∃ (names : List String) (newRows : List Row),
      out.cols = df.cols.eraseIdx ci ++ names ∧
      newRows.length = df.rows.length ∧
      (∀ r ∈ newRows, ∀ v ∈ r, ∃ z : Int, v = Value.int z) ∧
      out.rows = dropDuplicates
        (((df.rows.map (fun r => r.eraseIdx ci)).zip newRows).map
          (fun p => p.1 ++ p.2)) := by
  obtain ⟨ci', names, pre, hcnt, hci', hcc, hout⟩ := clean_data_ok h
  obtain rfl : ci = ci' := Option.some.inj (hci.symm.trans hci')
  obtain ⟨first, rest, catCols, hcf, hsn, hnd, hcc2, hpre⟩ := cleanCore_ok hcc
  subst hout
  subst hpre
  refine ⟨names, (List.range (catFrame df ci).length).map
      (fun i => catCols.map (fun col => Value.int (col.getD i 0))),
    rfl, by simp [length_catFrame], ?_, rfl⟩
  intro r hr v hv
  obtain ⟨i, _, rfl⟩ := List.mem_map.mp hr
  obtain ⟨col, _, rfl⟩ := List.mem_map.mp hv
  exact ⟨_, rfl⟩

/-- Witness for C6 at a concrete table with a non-`categories` payload
column. -/
theorem c6_witness :
    clean_data (Table.mk ["id", "message", "categories"]
        [[Value.int 1, Value.str (pstr "help"), Value.str (pstr "related-1;offer-0")]]) =
      .ok (Table.mk ["id", "message", "related", "offer"]
        [[Value.int 1, Value.str (pstr "help"), Value.int 1, Value.int 0]]) ∧
    ∃ (names : List String) (newRows : List Row),
      (Table.mk ["id", "message", "related", "offer"]
        [[Value.int 1, Value.str (pstr "help"), Value.int 1, Value.int 0]]).cols =
        (Table.mk ["id", "message", "categories"]
          [[Value.int 1, Value.str (pstr "help"),
            Value.str (pstr "related-1;offer-0")]]).cols.eraseIdx 2 ++ names ∧
      newRows.length = (Table.mk ["id", "message", "categories"]
          [[Value.int 1, Value.str (pstr "help"),
            Value.str (pstr "related-1;offer-0")]]).rows.length ∧
      (∀ r ∈ newRows, ∀ v ∈ r, ∃ z : Int, v = Value.int z) ∧
      (Table.mk ["id", "message", "related", "offer"]
        [[Value.int 1, Value.str (pstr "help"), Value.int 1, Value.int 0]]).rows =
        dropDuplicates
          ((((Table.mk ["id", "message", "categories"]
            [[Value.int 1, Value.str (pstr "help"),
              Value.str (pstr "related-1;offer-0")]]).rows.map
                (fun r => r.eraseIdx 2)).zip newRows).map
            (fun p => p.1 ++ p.2)) := by
  refine ⟨by rfl, ?_⟩
  exact c6_frame
    (Table.mk ["id", "message", "categories"]
      [[Value.int 1, Value.str (pstr "help"), Value.str (pstr "related-1;offer-0")]])
    (Table.mk ["id", "message", "related", "offer"]
      [[Value.int 1, Value.str (pstr "help"), Value.int 1, Value.int 0]])
    2 (by rfl) (by rfl)

/-- Claim C2: when `clean_data` returns, the integer it stored for row i
and derived column j (in the recombined rows, before duplicate removal)
equals the integer parse of the last character of the j-th `;`-token of
that row's `categories` value; values are not clamped to 0 or 1 — the
witness shows a token value of 2 passing through as 2. -/
theorem c2_value_extraction (df out : Table) (ci : Nat)
    (hci : df.colIdx "categories" = some ci)
    (hwf : ∀ r ∈ df.rows, r.length = df.cols.length)
    (h : clean_data df = .ok out) :
    ∃ pre : List Row,
      out.rows = dropDuplicates pre ∧
      pre.length = df.rows.length ∧
      ∀ i, i < df.rows.length → ∀ s : List Char,
        cellAt (df.rows.getD i []) ci = Value.str s →
        ∀ j, j < (splitSemi s).length → ∀ c : Char,
          ((splitSemi s).getD j []).getLast? = some c →
          cellAt (pre.getD i []) ((df.cols.eraseIdx ci).length + j)
            = Value.int (digitVal c) := by
  obtain ⟨ci', names, pre, hcnt, hci', hcc, hout⟩ := clean_data_ok h
  obtain rfl : ci = ci' := Option.some.inj (hci.symm.trans hci')
  obtain ⟨first, rest, catCols, hcf, hsn, hnd, hcc2, hpre⟩ := cleanCore_ok hcc
  obtain ⟨hcatlen, hcols⟩ := convertColumns_ok hcc2
  subst hout
  refine ⟨pre, rfl, ?_, ?_⟩
  · rw [hpre]
    simp [length_catFrame]
  · intro i hi s hs j hj c hc
    have hrmem : df.rows.getD i [] ∈ df.rows := by
      rw [List.getD_eq_getElem _ _ hi]
      exact List.getElem_mem _
    obtain ⟨s2, hcell2, hk2⟩ := cleanCore_ok_uniform hcc _ hrmem
    obtain rfl : s = s2 := Value.str.inj (hs.symm.trans hcell2)
    have hjn : j < catWidth df ci := hk2 ▸ hj
    have hblen : i < (catFrame df ci).length := by
      rw [length_catFrame]; exact hi
    have hzlt : i < ((df.rows.map (fun r => r.eraseIdx ci)).zip
        ((List.range (catFrame df ci).length).map
          (fun i2 => catCols.map (fun col => Value.int (col.getD i2 0))))).length := by
      simp only [List.length_zip, List.length_map, List.length_range,
        length_catFrame, Nat.min_self]
      exact hi
    have hpg : pre.getD i [] =
        (df.rows.getD i []).eraseIdx ci ++
          catCols.map (fun col => Value.int (col.getD i 0)) := by
      rw [hpre]
      rw [getD_map (fun p => p.1 ++ p.2) _ i ([], []) [] hzlt]
      rw [List.getD_eq_getElem _ _ hzlt, List.getElem_zip]
      simp only []
      congr 1
      · rw [← List.getD_eq_getElem _ ([] : Row) (by simpa using hi)]
        exact getD_map (fun r => r.eraseIdx ci) _ i [] [] hi
      · rw [← List.getD_eq_getElem _ ([] : Row) (by simp [length_catFrame]; exact hi)]
        exact getD_range_map _ _ _ _ hblen
    obtain ⟨hcilt, -⟩ := colIdx_spec hci
    have hrl : (df.rows.getD i []).length = df.cols.length := hwf _ hrmem
    have hcirow : ci < (df.rows.getD i []).length := by
      rw [hrl]; exact hcilt
    have hAlen : ((df.rows.getD i []).eraseIdx ci).length =
        (df.cols.eraseIdx ci).length := by
      rw [List.length_eraseIdx, List.length_eraseIdx, if_pos hcirow,
        if_pos hcilt, hrl]
    rw [hpg]
    unfold cellAt
    rw [← hAlen, getD_append_right_add]
    have hjcat : j < catCols.length := by
      rw [hcatlen, List.length_range]
      exact hjn
    rw [getD_map (fun col => Value.int (col.getD i 0)) _ j [] Value.none hjcat]
    have hconv := hcols j (by simpa using hjn)
    rw [getD_range _ _ hjn] at hconv
    obtain ⟨hclen, hcall⟩ := convertColumn_ok hconv
    have hidx : i < ((catFrame df ci).map (fun r => cellAt r j)).length := by
      simp only [List.length_map, length_catFrame]
      exact hi
    obtain ⟨s3, c3, hs3, hlast3, hdig3, hz3⟩ := hcall i hidx
    have hcellsi : ((catFrame df ci).map (fun r => cellAt r j)).getD i Value.none
        = Value.str ((splitSemi s).getD j []) := by
      rw [getD_map (fun r => cellAt r j) _ i [] Value.none hblen]
      rw [catFrame_def]
      rw [getD_map (expandCell (catWidth df ci)) _ i Value.none []
        (by simpa using hi)]
      rw [getD_map (fun r => cellAt r ci) _ i [] Value.none hi]
      rw [hs]
      exact expandCell_str_getD_lt hj
    rw [hcellsi] at hs3
    obtain rfl : (splitSemi s).getD j [] = s3 := Value.str.inj hs3
    have hceq : c3 = c := Option.some.inj (hlast3.symm.trans hc)
    rw [hz3, hceq]

/-- Witness for C2, with a non-binary token `b-2` whose value 2 is stored
unchanged (no clamping to 0 or 1). -/
theorem c2_witness :
    clean_data (Table.mk ["id", "categories"]
        [[Value.int 1, Value.str (pstr "a-1;b-2")]]) =
      .ok (Table.mk ["id", "a", "b"] [[Value.int 1, Value.int 1, Value.int 2]]) ∧
    (∃ pre : List Row,
      (Table.mk ["id", "a", "b"] [[Value.int 1, Value.int 1, Value.int 2]]).rows =
        dropDuplicates pre ∧
      pre.length = (Table.mk ["id", "categories"]
          [[Value.int 1, Value.str (pstr "a-1;b-2")]]).rows.length ∧
      ∀ i, i < (Table.mk ["id", "categories"]
          [[Value.int 1, Value.str (pstr "a-1;b-2")]]).rows.length → ∀ s : List Char,
        cellAt ((Table.mk ["id", "categories"]
          [[Value.int 1, Value.str (pstr "a-1;b-2")]]).rows.getD i []) 1 = Value.str s →
        ∀ j, j < (splitSemi s).length → ∀ c : Char,
          ((splitSemi s).getD j []).getLast? = some c →
          cellAt (pre.getD i [])
              (((Table.mk ["id", "categories"]
                [[Value.int 1, Value.str (pstr "a-1;b-2")]]).cols.eraseIdx 1).length + j)
            = Value.int (digitVal c)) ∧
    digitVal '2' = 2 := by
  refine ⟨by rfl, ?_, by decide⟩
  exact c2_value_extraction
    (Table.mk ["id", "categories"] [[Value.int 1, Value.str (pstr "a-1;b-2")]])
    (Table.mk ["id", "a", "b"] [[Value.int 1, Value.int 1, Value.int 2]])
    1 (by rfl) (by decide) (by rfl)

/-- Claim C3: for input tables that both have an `id` column (at indices
`im`, `ic`), every row of the merged table carries an `id` value present
in both inputs; each value appears in the merged `id` column exactly the
product of its multiplicities in the two inputs (inner-join semantics);
and the merged column list is the union of the two inputs' columns.
(The hypothesis `hdisj` records the source's standing assumption that
non-`id` column names do not collide, under which pandas applies no
suffix renaming and this embedding of the merge is exact.) -/
theorem c3_join (m c out : Table) (im ic : Nat)
    (him : m.colIdx "id" = some im) (hic : c.colIdx "id" = some ic)
    (hwm : ∀ r ∈ m.rows, r.length = m.cols.length)
    (hdisj : ∀ x ∈ m.cols, x ∈ c.cols → x = "id")
    (h : merge_inner m c = .ok out) :
    (∀ r ∈ out.rows,
        cellAt r im ∈ m.rows.map (fun rm => cellAt rm im) ∧
        cellAt r im ∈ c.rows.map (fun rc => cellAt rc ic)) ∧
    (∀ v : Value,
        (out.rows.map (fun r => cellAt r im)).count v =
          (m.rows.map (fun rm => cellAt rm im)).count v *
            (c.rows.map (fun rc => cellAt rc ic)).count v) ∧
    (∀ x : String, x ∈ out.cols ↔ x ∈ m.cols ∨ x ∈ c.cols) := by
  obtain ⟨him_lt, him_eq⟩ := colIdx_spec him
  obtain ⟨hic_lt, hic_eq⟩ := colIdx_spec hic
  have hrmlen : ∀ rm ∈ m.rows, im < rm.length := by
    intro rm hrm
    rw [hwm rm hrm]
    exact him_lt
  unfold merge_inner at h
  rw [him, hic] at h
  simp only [Except.ok.injEq] at h
  subst h
  refine ⟨?_, ?_, ?_⟩
  · intro r hr
    obtain ⟨rm, hrm, hr2⟩ := List.mem_flatMap.mp hr
    obtain ⟨rc, hrcf, rfl⟩ := List.mem_map.mp hr2
    obtain ⟨hrc, hkey⟩ := List.mem_filter.mp hrcf
    have hkey2 : cellAt rc ic = cellAt rm im := by simpa using hkey
    rw [cellAt_append_left (hrmlen rm hrm)]
    constructor
    · exact List.mem_map_of_mem _ hrm
    · rw [← hkey2]
      exact List.mem_map_of_mem _ hrc
  · intro v
    exact merge_rows_count ic im c.rows v m.rows hrmlen
  · intro x
    constructor
    · intro hx
      rcases List.mem_append.mp hx with hx | hx
      · exact Or.inl hx
      · exact Or.inr ((List.eraseIdx_sublist c.cols ic).subset hx)
    · intro hx
      by_cases hxid : x = "id"
      · subst hxid
        exact List.mem_append.mpr (Or.inl (him_eq ▸ List.getElem_mem him_lt))
      · rcases hx with hx | hx
        · exact List.mem_append.mpr (Or.inl hx)
        · refine List.mem_append.mpr (Or.inr ?_)
          exact mem_eraseIdx_of_mem_ne hx hic_lt (by rw [hic_eq]; exact hxid)

/-- Witness for C3 at concrete tables: `id` 1 occurs twice in messages
and once in categories (product 2), `id` 2 and 3 occur on one side
only. -/
theorem c3_witness :
    merge_inner
        (Table.mk ["id", "message"]
          [[Value.int 1, Value.str (pstr "help")],
           [Value.int 2, Value.str (pstr "x")],
           [Value.int 1, Value.str (pstr "y")]])
        (Table.mk ["id", "categories"]
          [[Value.int 1, Value.str (pstr "related-1")],
           [Value.int 3, Value.str (pstr "z")]]) =
      .ok (Table.mk ["id", "message", "categories"]
        [[Value.int 1, Value.str (pstr "help"), Value.str (pstr "related-1")],
         [Value.int 1, Value.str (pstr "y"), Value.str (pstr "related-1")]]) ∧
    (∀ v : Value,
      ((Table.mk ["id", "message", "categories"]
        [[Value.int 1, Value.str (pstr "help"), Value.str (pstr "related-1")],
         [Value.int 1, Value.str (pstr "y"), Value.str (pstr "related-1")]]).rows.map
          (fun r => cellAt r 0)).count v =
        ((Table.mk ["id", "message"]
          [[Value.int 1, Value.str (pstr "help")],
           [Value.int 2, Value.str (pstr "x")],
           [Value.int 1, Value.str (pstr "y")]]).rows.map
            (fun rm => cellAt rm 0)).count v *
          ((Table.mk ["id", "categories"]
            [[Value.int 1, Value.str (pstr "related-1")],
             [Value.int 3, Value.str (pstr "z")]]).rows.map
              (fun rc => cellAt rc 0)).count v) := by
  refine ⟨by rfl, ?_⟩
  exact (c3_join
    (Table.mk ["id", "message"]
      [[Value.int 1, Value.str (pstr "help")],
       [Value.int 2, Value.str (pstr "x")],
       [Value.int 1, Value.str (pstr "y")]])
    (Table.mk ["id", "categories"]
      [[Value.int 1, Value.str (pstr "related-1")],
       [Value.int 3, Value.str (pstr "z")]])
    (Table.mk ["id", "message", "categories"]
      [[Value.int 1, Value.str (pstr "help"), Value.str (pstr "related-1")],
       [Value.int 1, Value.str (pstr "y"), Value.str (pstr "related-1")]])
    0 0 (by rfl) (by rfl) (by decide) (by decide) (by rfl)).2.1

/-- Counterexample to claim C5 as stated: this merged table's second row
splits into 1 token against 2 derived columns, yet `clean_data` fails
with `valueError` — the ConversionError-kind failure of `int('z')`,
reached in an earlier column of the conversion loop — and not with the
ParseError-kind `typeError`, so the universally claimed error kind is
wrong when a conversion defect accompanies the token-count mismatch. -/
theorem c5_counterexample :
    ((splitSemi (pstr "x-z")).length ≠ (splitSemi (pstr "ab-1;cd-2")).length) ∧
    clean_data (Table.mk ["id", "categories"]
        [[Value.int 1, Value.str (pstr "ab-1;cd-2")],
         [Value.int 2, Value.str (pstr "x-z")]]) = .error .valueError ∧
    PDError.valueError ≠ PDError.typeError :=
  ⟨by decide, by rfl, by decide⟩

/-- Claim C5 (amended): if some row's `categories` value splits into a
token count different from the first row's, `clean_data` always fails —
it never returns a table, never silently misaligning or filling the
missing positions — and the error is the ParseError-kind `typeError`
provided every row's tokens end in digit characters, the derived names
are distinct and the `categories` column is unique; otherwise an earlier
failure of another kind may surface first (see the counterexample). -/
theorem c5_mismatch_fails (df : Table) (ci : Nat) (r0 : Row) (rs : List Row)
    (s0 : List Char)
    (hci : df.colIdx "categories" = some ci)
    (hrows : df.rows = r0 :: rs)
    (hs0 : cellAt r0 ci = Value.str s0)
    (hmis : ∃ r ∈ df.rows, ∃ s : List Char, cellAt r ci = Value.str s ∧
      (splitSemi s).length ≠ (splitSemi s0).length) :
    (∀ t, clean_data df ≠ .ok t) ∧
    ((∀ r ∈ df.rows, goodCat (cellAt r ci) = true) →
      ((splitSemi s0).map (fun t => String.mk (dropLast2 t))).Nodup →
      df.cols.count "categories" = 1 →
      clean_data df = .error .typeError) := by
  have hr0mem : r0 ∈ df.rows := by rw [hrows]; exact List.mem_cons_self _ _
  have hk0le : (splitSemi s0).length ≤ catWidth df ci := by
    rw [catWidth_def]
    have hle := tokWidth_le_expandWidth
      (List.mem_map_of_mem (fun r => cellAt r ci) hr0mem)
    simp only [hs0] at hle
    simpa [tokWidth] using hle
  constructor
  · intro t hok
    obtain ⟨ci', names, pre, hcnt, hci', hcc, -⟩ := clean_data_ok hok
    obtain rfl : ci = ci' := Option.some.inj (hci.symm.trans hci')
    obtain ⟨rbad, hrbad, sbad, hsbad, hne⟩ := hmis
    obtain ⟨s1, hc1, hk1⟩ := cleanCore_ok_uniform hcc rbad hrbad
    obtain rfl : sbad = s1 := Value.str.inj (hsbad.symm.trans hc1)
    obtain ⟨s2, hc2, hk2⟩ := cleanCore_ok_uniform hcc r0 hr0mem
    obtain rfl : s0 = s2 := Value.str.inj (hs0.symm.trans hc2)
    exact hne (hk1.trans hk2.symm)
  · intro hgood hnods hcnt
    suffices hcore : cleanCore df ci = .error .typeError by
      unfold clean_data
      rw [if_pos hcnt, hci]
      simp only [hcore]
    have hcf := catFrame_cons df ci hrows
    rcases Nat.lt_or_ge (splitSemi s0).length (catWidth df ci) with hlt | hge
    · -- some row has more tokens than the first: naming the columns
      -- already subscripts a None cell
      have herr : stripNames (expandCell (catWidth df ci) (cellAt r0 ci)) =
          .error .typeError := by
        rw [hs0]
        show stripNames ((splitSemi s0).map Value.str ++
          List.replicate (catWidth df ci - (splitSemi s0).length) Value.none) = _
        apply stripNames_error_of_none
        · intro v hv
          rcases List.mem_append.mp hv with hv | hv
          · obtain ⟨t, -, rfl⟩ := List.mem_map.mp hv
            exact Or.inl ⟨t, rfl⟩
          · exact Or.inr (List.eq_of_mem_replicate hv)
        · refine List.mem_append.mpr (Or.inr ?_)
          rw [List.mem_replicate]
          exact ⟨by omega, rfl⟩
      exact cleanCore_error_stripNames hcf herr
    · -- the first row is widest: some row has fewer tokens, whose None
      -- padding the conversion loop subscripts
      have hk0 : (splitSemi s0).length = catWidth df ci :=
        Nat.le_antisymm hk0le hge
      have hfirst : expandCell (catWidth df ci) (cellAt r0 ci) =
          (splitSemi s0).map Value.str := by
        rw [hs0, ← hk0]
        simp [expandCell]
      have hsn : stripNames (expandCell (catWidth df ci) (cellAt r0 ci)) =
          .ok ((splitSemi s0).map (fun t => String.mk (dropLast2 t))) := by
        rw [hfirst, stripNames_map_str]
      have hcv : convertColumns (catFrame df ci)
          (List.range (catWidth df ci)) = .error .typeError := by
        apply convertColumns_typeError
        · intro j hjr v hv
          obtain ⟨er, hermem, rfl⟩ := List.mem_map.mp hv
          rw [catFrame_def] at hermem
          obtain ⟨cell, hcellmem, rfl⟩ := List.mem_map.mp hermem
          obtain ⟨r, hrmem2, rfl⟩ := List.mem_map.mp hcellmem
          have hg := hgood r hrmem2
          cases hcv2 : cellAt r ci with
          | str sr =>
            rw [hcv2] at hg
            have htoks := (goodCat_str_iff sr).mp hg
            by_cases hjk : j < (splitSemi sr).length
            · left
              rw [expandCell_str_getD_lt hjk]
              obtain ⟨cch, hcch, hdg⟩ := htoks ((splitSemi sr).getD j [])
                (by rw [List.getD_eq_getElem _ _ hjk]; exact List.getElem_mem _)
              exact ⟨(splitSemi sr).getD j [], cch, rfl, hcch, hdg⟩
            · right
              rw [expandCell_str_getD_ge (Nat.le_of_not_lt hjk)]
          | int z => rw [hcv2] at hg; simp [goodCat] at hg
          | none => rw [hcv2] at hg; simp [goodCat] at hg
        · obtain ⟨rbad, hrbad, sbad, hsbad, hne⟩ := hmis
          have hkb_le : (splitSemi sbad).length ≤ catWidth df ci := by
            rw [catWidth_def]
            have hle := tokWidth_le_expandWidth
              (List.mem_map_of_mem (fun r => cellAt r ci) hrbad)
            simp only [hsbad] at hle
            simpa [tokWidth] using hle
          have hkb_lt : (splitSemi sbad).length < catWidth df ci := by
            rcases hkb_le.lt_or_eq with hlt2 | heq2
            · exact hlt2
            · exact absurd (heq2.trans hk0.symm) hne
          refine ⟨(splitSemi sbad).length, by simpa using hkb_lt, ?_⟩
          have her : expandCell (catWidth df ci) (cellAt rbad ci) ∈
              catFrame df ci := by
            rw [catFrame_def]
            exact List.mem_map_of_mem _ (List.mem_map_of_mem _ hrbad)
          have hnonecell :
              cellAt (expandCell (catWidth df ci) (cellAt rbad ci))
                (splitSemi sbad).length = Value.none := by
            rw [hsbad, expandCell_str_getD_ge (le_refl _)]
          rw [← hnonecell]
          exact List.mem_map_of_mem _ her
      exact cleanCore_error_convert hcf hsn hnods hcv

/-- Witness for the amended C5: the second row has one token against two
derived columns, all tokens end in digits, and `clean_data` fails with
the ParseError-kind `typeError`, returning no table. -/
theorem c5_witness :
    (∀ t, clean_data (Table.mk ["id", "categories"]
        [[Value.int 1, Value.str (pstr "ab-1;cd-2")],
         [Value.int 2, Value.str (pstr "x-1")]]) ≠ .ok t) ∧
    clean_data (Table.mk ["id", "categories"]
        [[Value.int 1, Value.str (pstr "ab-1;cd-2")],
         [Value.int 2, Value.str (pstr "x-1")]]) = .error .typeError := by
  have happ := c5_mismatch_fails
    (Table.mk ["id", "categories"]
      [[Value.int 1, Value.str (pstr "ab-1;cd-2")],
       [Value.int 2, Value.str (pstr "x-1")]])
    1 [Value.int 1, Value.str (pstr "ab-1;cd-2")]
    [[Value.int 2, Value.str (pstr "x-1")]]
    (pstr "ab-1;cd-2")
    (by rfl) (by rfl) (by rfl)
    ⟨[Value.int 2, Value.str (pstr "x-1")], by decide, pstr "x-1", rfl, by decide⟩
  exact ⟨happ.1, happ.2 (by decide) (by decide) (by decide)⟩

end ProcessData
